import Mathlib

/-!
# Pagination formatter: verification of the two implementations

This file embeds the two pagination implementations of the repository:

* `JG.paginate` — `examples/pagination/jg_pagination.py` (midpoint-shift arithmetic);
* `OE.paginate` — `odds-and-ends/pagination/pagination.py` (need-left/need-right branching);

and proves the output invariants stated in the specification (current-page
marking, first/last anchors, ellipsis placement, numeric-token bounds,
centering, totality) or refutes them where the code behaves otherwise.

Python integers are embedded as `Int`; Python `//` and `%` are `Int.fdiv` and
`Int.fmod` (floor division and the modulo whose sign follows the divisor, which
is exactly Python's semantics); Python `range(a, b)` is `intRange a b`.
-/

/-- Display token of the pagination output: a plain page number, the bracketed
current page, or an ellipsis standing for omitted pages. -/
inductive Token where
  | page (n : Int)
  | current (n : Int)
  | ellipsis
deriving DecidableEq, Repr

/-- Python `range(a, b)`: the integers `a, a+1, …, b-1`. -/
def intRange (a b : Int) : List Int :=
  (List.range (b - a).toNat).map (fun (i : Nat) => a + (i : Int))

/-- Rendering of one token: `Page n` as the decimal of `n`, `CurrentPage n`
bracketed, `Ellipsis` as `"..."`; mirrors `page(p, curPage)` in
jg_pagination.py and the final loop of pagination.py. -/
def renderToken : Token → String
  | Token.page n => toString n
  | Token.current n => "[" ++ toString n ++ "]"
  | Token.ellipsis => "..."

namespace JG

/-- One entry of the `pages` list in jg_pagination.py: an int, or the `'...'`
string sentinel. -/
inductive Item where
  | num (n : Int)
  | dots
deriving DecidableEq, Repr

/-- `maxP = 3 if maxVisiblePages < 3 else maxVisiblePages` (line 73). -/
def maxP (maxVisiblePages : Int) : Int :=
  if maxVisiblePages < 3 then 3 else maxVisiblePages

/-- `mid = maxP // 2` (line 82). -/
def mid (m : Int) : Int := (maxP m).fdiv 2

/-- `extra = maxP % 2` (line 83). -/
def extra (m : Int) : Int := (maxP m).fmod 2

/-- `secondPage = max(0, curPage - mid - extra) + 2` (line 84), before the
overflow adjustment. -/
def secondPage0 (curPage m : Int) : Int :=
  max 0 (curPage - mid m - extra m) + 2

/-- `penultimatePage = secondPage + maxP - 2` (line 85), before the overflow
adjustment. -/
def penultimate0 (curPage m : Int) : Int :=
  secondPage0 curPage m + maxP m - 2

/-- `secondPage` after the overflow adjustment of lines 86-90. -/
def secondPage (curPage totalPages m : Int) : Int :=
  if totalPages < penultimate0 curPage m then
    secondPage0 curPage m - (penultimate0 curPage m - totalPages)
  else secondPage0 curPage m

/-- `penultimatePage` after the overflow adjustment of lines 86-90. -/
def penultimate (curPage totalPages m : Int) : Int :=
  if totalPages < penultimate0 curPage m then totalPages
  else penultimate0 curPage m

/-- The `pages` list built by `paginate` (lines 75-99): all of `1..lastP` when
`lastP <= 3 or maxP >= lastP`, otherwise
`[1] ++ ellipsis? ++ range(secondPage, penultimatePage) ++ ellipsis? ++ [lastP]`. -/
def pagesList (curPage totalPages m : Int) : List Item :=
  if totalPages ≤ 3 ∨ maxP m ≥ totalPages then
    (intRange 1 (totalPages + 1)).map Item.num
  else
    [Item.num 1]
    ++ (if 2 < secondPage curPage totalPages m then [Item.dots] else [])
    ++ ((intRange (secondPage curPage totalPages m)
          (penultimate curPage totalPages m)).map Item.num)
    ++ (if penultimate curPage totalPages m < totalPages then [Item.dots] else [])
    ++ [Item.num totalPages]

/-- `page(p, curPage)` (line 41-43) applied to each list entry: a number is
bracketed exactly when it equals the (unclamped) `curPage`; the `'...'`
sentinel renders as an ellipsis (in Python `curPage == '...'` is `False`). -/
def itemToken (curPage : Int) : Item → Token
  | Item.num n => if curPage = n then Token.current n else Token.page n
  | Item.dots => Token.ellipsis

/-- Token sequence produced by jg_pagination.py's `paginate`. -/
def tokens (curPage totalPages maxVisiblePages : Int) : List Token :=
  (pagesList curPage totalPages maxVisiblePages).map (itemToken curPage)

/-- `paginate(curPage, totalPages, maxVisiblePages)` of jg_pagination.py:
`' '.join([page(p, curPage) for p in pages])`. -/
def paginate (curPage totalPages maxVisiblePages : Int) : String :=
  String.intercalate " " ((tokens curPage totalPages maxVisiblePages).map renderToken)

end JG

namespace OE

/-- `current_page = max(1, min(current_page, total_pages))` (line 16; note it
uses the not-yet-clamped `total_pages`). -/
def cur (current_page total_pages : Int) : Int :=
  max 1 (min current_page total_pages)

/-- `total_pages = max(1, total_pages)` (line 17). -/
def total (total_pages : Int) : Int := max 1 total_pages

/-- `max_pages = max(3, max_pages)` (line 18). -/
def maxp (max_pages : Int) : Int := max 3 max_pages

/-- `remaining_pages = max_pages - 2` (line 32). -/
def rem (max_pages : Int) : Int := maxp max_pages - 2

/-- `need_left_ellipsis = (current_page > remaining_pages // 2 + 2)` (line 36). -/
def needL (c t m : Int) : Prop := (rem m).fdiv 2 + 2 < cur c t

instance (c t m : Int) : Decidable (needL c t m) := by
  unfold needL
  infer_instance

/-- `need_right_ellipsis = (current_page < total_pages - remaining_pages // 2 - 1)`
(line 37). -/
def needR (c t m : Int) : Prop := cur c t < total t - (rem m).fdiv 2 - 1

instance (c t m : Int) : Decidable (needR c t m) := by
  unfold needR
  infer_instance

/-- `side_pages = (remaining_pages - 1) // 2` (line 46). -/
def side (m : Int) : Int := (rem m - 1).fdiv 2

/-- `(start_page, end_page)` as computed by lines 43-70, including the
even-remainder adjustment of lines 51-58; `start_page = max(2, current - side)`
and `end_page = min(total - 1, current + side)` are written out in place. -/
def startEnd (c t m : Int) : Int × Int :=
  if needL c t m ∧ needR c t m then
    if (rem m).fmod 2 = 0 then
      if cur c t - max 2 (cur c t - side m)
          < min (total t - 1) (cur c t + side m) - cur c t then
        (max 2 (cur c t - side m), min (total t - 1) (cur c t + side m) + 1)
      else
        (max 2 (cur c t - side m) - 1, min (total t - 1) (cur c t + side m))
    else (max 2 (cur c t - side m), min (total t - 1) (cur c t + side m))
  else if needL c t m then (total t - rem m, total t - 1)
  else if needR c t m then (2, rem m + 1)
  else (2, total t - 1)

/-- `pages_to_show` (lines 39-86), with `-1` as the source's ellipsis sentinel:
`[1] ++ left-ellipsis? ++ range(start_page, end_page + 1) ++ right-ellipsis?
++ (last page if total_pages > 1)`. -/
def pagesToShow (c t m : Int) : List Int :=
  [1]
  ++ (if needL c t m then [-1] else [])
  ++ intRange (startEnd c t m).1 ((startEnd c t m).2 + 1)
  ++ (if needR c t m then [-1] else [])
  ++ (if 1 < total t then [total t] else [])

/-- Final rendering decision of lines 90-99: `-1` is the ellipsis, the clamped
current page is bracketed, anything else is a plain page. -/
def intToken (c t : Int) (p : Int) : Token :=
  if p = -1 then Token.ellipsis
  else if p = cur c t then Token.current p
  else Token.page p

/-- Token sequence produced by pagination.py's `paginate`: lines 21-28 show all
pages when `total_pages <= max_pages`, otherwise `pages_to_show` is rendered. -/
def tokens (c t m : Int) : List Token :=
  if total t ≤ maxp m then
    (intRange 1 (total t + 1)).map
      (fun i => if i = cur c t then Token.current i else Token.page i)
  else (pagesToShow c t m).map (intToken c t)

/-- `paginate(current_page, total_pages, max_pages)` of pagination.py. -/
def paginate (c t m : Int) : String :=
  String.intercalate " " ((tokens c t m).map renderToken)

end OE

/-! ## Analysis definitions: observations on token sequences -/

/-- The page number carried by a numeric token (`Page`/`CurrentPage`), if any. -/
def numVal : Token → Option Int
  | Token.page n => some n
  | Token.current n => some n
  | Token.ellipsis => none

/-- The page number of a `CurrentPage` token, if the token is one. -/
def curVal : Token → Option Int
  | Token.current n => some n
  | Token.page _ => none
  | Token.ellipsis => none

/-- The page numbers of the numeric tokens, in sequence order. -/
def numVals (ts : List Token) : List Int := ts.filterMap numVal

/-- The page numbers of the `CurrentPage` tokens, in sequence order. -/
def curVals (ts : List Token) : List Int := ts.filterMap curVal

/-- How many numeric (non-ellipsis) tokens the sequence holds. -/
def numCount (ts : List Token) : Nat := (numVals ts).length

/-- Whether a token is the ellipsis. -/
def isEll : Token → Bool
  | Token.ellipsis => true
  | _ => false

/-- How many `Ellipsis` tokens the sequence holds. -/
def ellCount (ts : List Token) : Nat := ts.countP isEll

/-- A strictly increasing list of integers (adjacent comparison). -/
def strictIncr : List Int → Bool
  | a :: b :: l => decide (a < b) && strictIncr (b :: l)
  | _ => true

/-- No two adjacent tokens are both ellipses. -/
def noAdjEll : List Token → Bool
  | a :: b :: l => !(isEll a && isEll b) && noAdjEll (b :: l)
  | _ => true

/-- `gapOK k a b`: `a` and `b` are numeric tokens whose values differ by more
than `k`, i.e. the ellipsis between them stands for at least `k` omitted
pages. -/
def gapOK (k : Int) (a b : Token) : Bool :=
  match numVal a, numVal b with
  | some x, some y => decide (x + k + 1 ≤ y)
  | _, _ => false

/-- Every ellipsis having a left neighbour sits between two numeric tokens
whose values differ by more than `k` (so it stands for at least `k` omitted
consecutive pages); an ellipsis in final position fails the check. -/
def ellGapsGe (k : Int) : List Token → Bool
  | a :: b :: l =>
    (if isEll b then gapOK k a (l.head?.getD Token.ellipsis) else true)
      && ellGapsGe k (b :: l)
  | _ => true

/-- Number of numeric tokens strictly before the first `CurrentPage` token. -/
def befCur : List Token → Nat
  | [] => 0
  | Token.current _ :: _ => 0
  | Token.page _ :: l => befCur l + 1
  | Token.ellipsis :: l => befCur l

/-- Number of numeric tokens strictly after the first `CurrentPage` token. -/
def aftCur : List Token → Nat
  | [] => 0
  | Token.current _ :: l => numCount l
  | Token.page _ :: l => aftCur l
  | Token.ellipsis :: l => aftCur l

/-- The token a pagination layout emits for page `n` when the current page is
`c`: bracketed exactly when `n` is `c` (shared shape of both sources'
renderers). -/
def numTok (c n : Int) : Token :=
  if c = n then Token.current n else Token.page n

/-! ## Basic lemmas about `intRange` -/

theorem intRange_eq_nil {a b : Int} (h : b ≤ a) : intRange a b = [] := by
  unfold intRange
  have h0 : (b - a).toNat = 0 := by omega
  rw [h0]
  rfl

theorem intRange_eq_cons {a b : Int} (h : a < b) :
    intRange a b = a :: intRange (a + 1) b := by
  unfold intRange
  have h1 : (b - a).toNat = (b - (a + 1)).toNat + 1 := by omega
  rw [h1, List.range_succ_eq_map, List.map_cons, List.map_map]
  refine congrArg₂ List.cons (by simp) ?_
  refine List.map_congr_left fun i _ => ?_
  simp only [Function.comp_apply]
  omega

theorem mem_intRange {x a b : Int} : x ∈ intRange a b ↔ a ≤ x ∧ x < b := by
  unfold intRange
  simp only [List.mem_map, List.mem_range]
  constructor
  · rintro ⟨i, hi, rfl⟩
    omega
  · rintro ⟨h1, h2⟩
    exact ⟨(x - a).toNat, by omega, by omega⟩

theorem length_intRange (a b : Int) : (intRange a b).length = (b - a).toNat := by
  unfold intRange
  rw [List.length_map, List.length_range]

theorem head?_intRange {a b : Int} (h : a < b) :
    (intRange a b).head? = some a := by
  rw [intRange_eq_cons h]
  rfl

theorem intRange_concat {a b : Int} (h : a < b) :
    intRange a b = intRange a (b - 1) ++ [b - 1] := by
  generalize hn : (b - a).toNat = n
  induction n generalizing a with
  | zero => omega
  | succ k ih =>
    rw [intRange_eq_cons h]
    by_cases hab : a + 1 < b
    · rw [ih hab (by omega), intRange_eq_cons (show a < b - 1 by omega)]
      rfl
    · have hb : b - 1 ≤ a := by omega
      rw [intRange_eq_nil (by omega : b ≤ a + 1), intRange_eq_nil hb]
      have hab1 : a = b - 1 := by omega
      rw [hab1]
      rfl

theorem getLast?_intRange {a b : Int} (h : a < b) :
    (intRange a b).getLast? = some (b - 1) := by
  rw [intRange_concat h]
  simp [List.getLast?_append]

theorem strictIncr_cons (x : Int) (l : List Int) :
    strictIncr (x :: l)
      = ((match l.head? with | some y => decide (x < y) | none => true)
          && strictIncr l) := by
  cases l <;> simp [strictIncr]

theorem strictIncr_intRange_append (a b : Int) (l : List Int)
    (hl : strictIncr l = true) (hhead : ∀ y, l.head? = some y → b ≤ y) :
    strictIncr (intRange a b ++ l) = true := by
  by_cases hab : a < b
  case neg =>
    rw [intRange_eq_nil (by omega), List.nil_append]
    exact hl
  generalize hn : (b - a).toNat = n
  induction n generalizing a with
  | zero => omega
  | succ k ih =>
    rw [intRange_eq_cons hab, List.cons_append, strictIncr_cons]
    by_cases h2 : a + 1 < b
    · rw [ih (a + 1) h2 (by omega)]
      rw [intRange_eq_cons h2, List.cons_append]
      simp
    · rw [intRange_eq_nil (by omega : b ≤ a + 1), List.nil_append, hl]
      cases hl' : l.head? with
      | none => simp
      | some y =>
        have hy := hhead y hl'
        simp [hl']
        omega

/-! ## Basic lemmas about tokens and token-list observations -/

theorem numVal_numTok (c n : Int) : numVal (numTok c n) = some n := by
  unfold numTok
  split <;> rfl

theorem curVal_numTok (c n : Int) :
    curVal (numTok c n) = if c = n then some n else none := by
  unfold numTok
  split <;> rfl

theorem isEll_numTok (c n : Int) : isEll (numTok c n) = false := by
  unfold numTok
  split <;> rfl

theorem numTok_comm (c n : Int) :
    (if n = c then Token.current n else Token.page n) = numTok c n := by
  unfold numTok
  by_cases h : c = n
  · rw [if_pos h, if_pos h.symm]
  · rw [if_neg h, if_neg fun hh => h hh.symm]

theorem numVals_map_numTok (c : Int) (r : List Int) :
    numVals (r.map (numTok c)) = r := by
  induction r with
  | nil => rfl
  | cons x r ih =>
    simp only [List.map_cons, numVals, List.filterMap_cons, numVal_numTok]
    simpa [numVals] using ih

theorem numVals_append (l1 l2 : List Token) :
    numVals (l1 ++ l2) = numVals l1 ++ numVals l2 :=
  List.filterMap_append l1 l2 numVal

theorem curVals_append (l1 l2 : List Token) :
    curVals (l1 ++ l2) = curVals l1 ++ curVals l2 :=
  List.filterMap_append l1 l2 curVal

theorem numCount_append (l1 l2 : List Token) :
    numCount (l1 ++ l2) = numCount l1 + numCount l2 := by
  unfold numCount
  rw [numVals_append, List.length_append]

theorem numCount_map_numTok (c : Int) (r : List Int) :
    numCount (r.map (numTok c)) = r.length := by
  unfold numCount
  rw [numVals_map_numTok]

theorem ellCount_append (l1 l2 : List Token) :
    ellCount (l1 ++ l2) = ellCount l1 + ellCount l2 :=
  List.countP_append isEll l1 l2

theorem ellCount_map_numTok (c : Int) (r : List Int) :
    ellCount (r.map (numTok c)) = 0 := by
  induction r with
  | nil => rfl
  | cons x r ih =>
    simp only [List.map_cons, ellCount, List.countP_cons, isEll_numTok]
    simpa [ellCount] using ih

theorem curVals_cons_numTok (c a : Int) (ts : List Token) :
    curVals (numTok c a :: ts)
      = (if c = a then [a] else []) ++ curVals ts := by
  unfold curVals
  rw [List.filterMap_cons, curVal_numTok]
  by_cases h : c = a
  · rw [if_pos h, if_pos h]
    rfl
  · rw [if_neg h, if_neg h]
    rfl

theorem curVals_numTok_intRange (c a b : Int) :
    curVals ((intRange a b).map (numTok c))
      = if a ≤ c ∧ c < b then [c] else [] := by
  by_cases hab : a < b
  case neg =>
    rw [intRange_eq_nil (by omega), if_neg (by omega)]
    rfl
  generalize hn : (b - a).toNat = n
  induction n generalizing a with
  | zero => omega
  | succ k ih =>
    rw [intRange_eq_cons hab, List.map_cons, curVals_cons_numTok]
    by_cases h2 : a + 1 < b
    · rw [ih (a + 1) h2 (by omega)]
      by_cases hca : c = a
      · subst hca
        rw [if_pos rfl, if_neg (by omega), if_pos (by omega)]
        rfl
      · rw [if_neg hca]
        by_cases hc : a ≤ c ∧ c < b
        · rw [if_pos (by omega), if_pos hc]
          rfl
        · rw [if_neg (by omega), if_neg hc]
          rfl
    · rw [intRange_eq_nil (by omega), List.map_nil]
      by_cases hca : c = a
      · subst hca
        rw [if_pos rfl, if_pos (by omega)]
        rfl
      · rw [if_neg hca, if_neg (by omega)]
        rfl

theorem noAdjEll_cons_cons (a b : Token) (l : List Token) :
    noAdjEll (a :: b :: l) = (!(isEll a && isEll b) && noAdjEll (b :: l)) := rfl

theorem noAdjEll_cons_num (t : Token) (l : List Token) (h : isEll t = false) :
    noAdjEll (t :: l) = noAdjEll l := by
  cases l with
  | nil => cases t <;> rfl
  | cons b l => rw [noAdjEll_cons_cons, h, Bool.false_and, Bool.not_false, Bool.true_and]

theorem noAdjEll_append_num (ts l : List Token) (h : ∀ t ∈ ts, isEll t = false) :
    noAdjEll (ts ++ l) = noAdjEll l := by
  induction ts with
  | nil => rfl
  | cons a ts ih =>
    rw [List.cons_append, noAdjEll_cons_num a _ (h a (List.mem_cons_self a ts))]
    exact ih fun t ht => h t (List.mem_cons_of_mem a ht)

theorem noAdjEll_cons_ell_num (b : Token) (l : List Token) (h : isEll b = false) :
    noAdjEll (Token.ellipsis :: b :: l) = noAdjEll (b :: l) := by
  rw [noAdjEll_cons_cons, h, Bool.and_false, Bool.not_false, Bool.true_and]

theorem ellGapsGe_cons_cons (k : Int) (a b : Token) (l : List Token) :
    ellGapsGe k (a :: b :: l)
      = ((if isEll b then gapOK k a (l.head?.getD Token.ellipsis) else true)
          && ellGapsGe k (b :: l)) := rfl

theorem ellGapsGe_cons_num (k : Int) (a b : Token) (l : List Token)
    (h : isEll b = false) :
    ellGapsGe k (a :: b :: l) = ellGapsGe k (b :: l) := by
  rw [ellGapsGe_cons_cons, if_neg (by rw [h]; exact Bool.false_ne_true), Bool.true_and]

theorem ellGapsGe_append_num (k : Int) (ts : List Token) (z : Token)
    (l : List Token) (hts : ∀ t ∈ ts, isEll t = false) (hz : isEll z = false) :
    ellGapsGe k (ts ++ z :: l) = ellGapsGe k (z :: l) := by
  induction ts with
  | nil => rfl
  | cons a ts ih =>
    rw [List.cons_append]
    have hrest : ellGapsGe k (ts ++ z :: l) = ellGapsGe k (z :: l) :=
      ih fun t ht => hts t (List.mem_cons_of_mem a ht)
    cases ts with
    | nil => rw [List.nil_append] at hrest ⊢; rw [ellGapsGe_cons_num k a z _ hz, hrest]
    | cons b ts' =>
      rw [List.cons_append]
      rw [ellGapsGe_cons_num k a b _ (hts b (List.mem_cons_of_mem a (List.mem_cons_self b ts')))]
      rw [← List.cons_append]
      exact hrest

theorem befCur_cons_numTok (c n : Int) (l : List Token) :
    befCur (numTok c n :: l) = if c = n then 0 else befCur l + 1 := by
  unfold numTok
  by_cases h : c = n
  · rw [if_pos h, if_pos h]
    rfl
  · rw [if_neg h, if_neg h]
    rfl

theorem befCur_cons_ell (l : List Token) :
    befCur (Token.ellipsis :: l) = befCur l := rfl

theorem aftCur_cons_numTok (c n : Int) (l : List Token) :
    aftCur (numTok c n :: l) = if c = n then numCount l else aftCur l := by
  unfold numTok
  by_cases h : c = n
  · rw [if_pos h, if_pos h]
    rfl
  · rw [if_neg h, if_neg h]
    rfl

theorem aftCur_cons_ell (l : List Token) :
    aftCur (Token.ellipsis :: l) = aftCur l := rfl

theorem befCur_numTok_intRange (c a b : Int) (l : List Token)
    (h1 : a ≤ c) (h2 : c < b) :
    befCur ((intRange a b).map (numTok c) ++ l) = (c - a).toNat := by
  generalize hn : (b - a).toNat = n
  induction n generalizing a with
  | zero => omega
  | succ k ih =>
    rw [intRange_eq_cons (by omega), List.map_cons, List.cons_append,
      befCur_cons_numTok]
    by_cases hca : c = a
    · rw [if_pos hca]
      omega
    · rw [if_neg hca, ih (a + 1) (by omega) (by omega)]
      omega

theorem aftCur_numTok_intRange (c a b : Int) (l : List Token)
    (h1 : a ≤ c) (h2 : c < b) :
    aftCur ((intRange a b).map (numTok c) ++ l)
      = (b - 1 - c).toNat + numCount l := by
  generalize hn : (b - a).toNat = n
  induction n generalizing a with
  | zero => omega
  | succ k ih =>
    rw [intRange_eq_cons (by omega), List.map_cons, List.cons_append,
      aftCur_cons_numTok]
    by_cases hca : c = a
    · rw [if_pos hca]
      subst hca
      rw [numCount_append, numCount_map_numTok, length_intRange]
      omega
    · rw [if_neg hca, ih (a + 1) (by omega) (by omega)]

/-! ## Branch analysis of `JG.paginate` -/

theorem jg_maxP_ge (m : Int) : 3 ≤ JG.maxP m := by
  unfold JG.maxP
  split <;> omega

theorem jg_maxP_eq_max (m : Int) : JG.maxP m = max 3 m := by
  unfold JG.maxP
  split <;> omega

theorem jg_mid_extra (m : Int) :
    JG.maxP m = 2 * JG.mid m + JG.extra m ∧ 0 ≤ JG.extra m ∧ JG.extra m ≤ 1
      ∧ 1 ≤ JG.mid m := by
  have h3 := jg_maxP_ge m
  unfold JG.mid JG.extra
  rw [Int.fdiv_eq_ediv _ (by omega), Int.fmod_eq_emod _ (by omega)]
  omega

theorem jg_general_facts (c t m : Int) (h : ¬(t ≤ 3 ∨ JG.maxP m ≥ t)) :
    2 ≤ JG.secondPage c t m ∧
    JG.penultimate c t m = JG.secondPage c t m + JG.maxP m - 2 ∧
    JG.penultimate c t m ≤ t ∧
    JG.secondPage c t m < JG.penultimate c t m := by
  have h3 := jg_maxP_ge m
  have hme := jg_mid_extra m
  push_neg at h
  unfold JG.secondPage JG.penultimate JG.penultimate0 JG.secondPage0
  split_ifs <;> omega

theorem jg_mem_facts (c t m : Int) (h : ¬(t ≤ 3 ∨ JG.maxP m ≥ t))
    (hc1 : 2 ≤ c) (hc2 : c ≤ t - 1) :
    JG.secondPage c t m ≤ c ∧ c < JG.penultimate c t m := by
  have h3 := jg_maxP_ge m
  have hme := jg_mid_extra m
  push_neg at h
  unfold JG.secondPage JG.penultimate JG.penultimate0 JG.secondPage0
  split_ifs <;> omega

theorem jg_both_facts (c t m : Int) (h : ¬(t ≤ 3 ∨ JG.maxP m ≥ t))
    (hsp : 2 < JG.secondPage c t m) (hpen : JG.penultimate c t m < t) :
    JG.secondPage c t m = c - JG.mid m - JG.extra m + 2 ∧
    JG.penultimate c t m = c + JG.mid m ∧
    3 ≤ c ∧ c ≤ t - 1 := by
  have h3 := jg_maxP_ge m
  have hme := jg_mid_extra m
  push_neg at h
  unfold JG.secondPage JG.penultimate JG.penultimate0 JG.secondPage0 at *
  split_ifs at * <;> omega

theorem map_itemToken_dots (c : Int) (P : Prop) [Decidable P] :
    (if P then [JG.Item.dots] else []).map (JG.itemToken c)
      = (if P then [Token.ellipsis] else []) := by
  split <;> rfl

theorem jg_tokens_trivial (c t m : Int) (h : t ≤ 3 ∨ JG.maxP m ≥ t) :
    JG.tokens c t m = (intRange 1 (t + 1)).map (numTok c) := by
  unfold JG.tokens JG.pagesList
  rw [if_pos h, List.map_map]
  rfl

theorem jg_tokens_general (c t m : Int) (h : ¬(t ≤ 3 ∨ JG.maxP m ≥ t)) :
    JG.tokens c t m =
      [numTok c 1]
      ++ (if 2 < JG.secondPage c t m then [Token.ellipsis] else [])
      ++ (intRange (JG.secondPage c t m) (JG.penultimate c t m)).map (numTok c)
      ++ (if JG.penultimate c t m < t then [Token.ellipsis] else [])
      ++ [numTok c t] := by
  unfold JG.tokens JG.pagesList
  rw [if_neg h]
  simp only [List.map_append, map_itemToken_dots, List.map_map, List.map_cons,
    List.map_nil]
  rfl

/-! ## Branch analysis of `OE.paginate` -/

theorem oe_cur_ge_one (c t : Int) : 1 ≤ OE.cur c t := by
  unfold OE.cur
  omega

theorem oe_cur_le_total (c t : Int) : OE.cur c t ≤ OE.total t := by
  unfold OE.cur OE.total
  omega

theorem oe_total_ge_one (t : Int) : 1 ≤ OE.total t := by
  unfold OE.total
  omega

theorem oe_total_eq (t : Int) (h : 1 ≤ t) : OE.total t = t := by
  unfold OE.total
  omega

theorem oe_maxp_ge (m : Int) : 3 ≤ OE.maxp m := by
  unfold OE.maxp
  omega

theorem oe_rem_div (m : Int) :
    OE.rem m = 2 * (OE.rem m).fdiv 2 + (OE.rem m).fmod 2 ∧
    0 ≤ (OE.rem m).fmod 2 ∧ (OE.rem m).fmod 2 ≤ 1 ∧ 1 ≤ OE.rem m := by
  have h := oe_maxp_ge m
  have hr : 1 ≤ OE.rem m := by unfold OE.rem; omega
  rw [Int.fdiv_eq_ediv _ (by omega), Int.fmod_eq_emod _ (by omega)]
  omega

theorem oe_side_div (m : Int) :
    OE.rem m - 1 = 2 * OE.side m + (OE.rem m - 1).fmod 2 ∧
    0 ≤ (OE.rem m - 1).fmod 2 ∧ (OE.rem m - 1).fmod 2 ≤ 1 := by
  have h := oe_maxp_ge m
  have hr : 1 ≤ OE.rem m := by unfold OE.rem; omega
  unfold OE.side
  rw [Int.fdiv_eq_ediv _ (by omega), Int.fmod_eq_emod _ (by omega)]
  omega

theorem oe_startEnd_facts (c t m : Int) (h : ¬(OE.total t ≤ OE.maxp m)) :
    2 ≤ (OE.startEnd c t m).1 ∧
    (OE.startEnd c t m).1 ≤ (OE.startEnd c t m).2 ∧
    (OE.startEnd c t m).2 ≤ OE.total t - 1 ∧
    (OE.needL c t m → 3 ≤ (OE.startEnd c t m).1) ∧
    (OE.needR c t m → (OE.startEnd c t m).2 ≤ OE.total t - 2) ∧
    (OE.cur c t = 1 ∨ OE.cur c t = OE.total t ∨
      ((OE.startEnd c t m).1 ≤ OE.cur c t ∧ OE.cur c t ≤ (OE.startEnd c t m).2)) ∧
    (OE.startEnd c t m).2 + 1 - (OE.startEnd c t m).1 ≤ OE.rem m + 1 := by
  have hc1 : 1 ≤ OE.cur c t := oe_cur_ge_one c t
  have hc2 : OE.cur c t ≤ OE.total t := oe_cur_le_total c t
  have hrd := oe_rem_div m
  have hsd := oe_side_div m
  have hrm : OE.rem m = OE.maxp m - 2 := rfl
  rw [not_le] at h
  unfold OE.startEnd
  unfold OE.needL OE.needR OE.side at *
  split_ifs <;> dsimp only <;> omega

theorem intToken_ne_sentinel (c t p : Int) (h : ¬(p = -1)) :
    OE.intToken c t p = numTok (OE.cur c t) p := by
  unfold OE.intToken
  rw [if_neg h]
  exact numTok_comm _ _

theorem oe_tokens_trivial (c t m : Int) (h : OE.total t ≤ OE.maxp m) :
    OE.tokens c t m = (intRange 1 (OE.total t + 1)).map (numTok (OE.cur c t)) := by
  unfold OE.tokens
  rw [if_pos h]
  exact List.map_congr_left fun i _ => numTok_comm _ _

theorem oe_tokens_general (c t m : Int) (h : ¬(OE.total t ≤ OE.maxp m)) :
    OE.tokens c t m =
      [numTok (OE.cur c t) 1]
      ++ (if OE.needL c t m then [Token.ellipsis] else [])
      ++ (intRange (OE.startEnd c t m).1 ((OE.startEnd c t m).2 + 1)).map
          (numTok (OE.cur c t))
      ++ (if OE.needR c t m then [Token.ellipsis] else [])
      ++ (if 1 < OE.total t then [numTok (OE.cur c t) (OE.total t)] else []) := by
  have hsp : 2 ≤ (OE.startEnd c t m).1 := (oe_startEnd_facts c t m h).1
  unfold OE.tokens OE.pagesToShow
  rw [if_neg h]
  rw [List.map_append, List.map_append, List.map_append, List.map_append]
  refine congrArg₂ (· ++ ·) (congrArg₂ (· ++ ·) (congrArg₂ (· ++ ·)
    (congrArg₂ (· ++ ·) ?_ ?_) ?_) ?_) ?_
  · rw [List.map_cons, List.map_nil, intToken_ne_sentinel c t 1 (by omega)]
  · split
    · rw [List.map_cons, List.map_nil]
      rfl
    · rfl
  · refine List.map_congr_left fun x hx => ?_
    have hx2 := mem_intRange.mp hx
    exact intToken_ne_sentinel c t x (by omega)
  · split
    · rw [List.map_cons, List.map_nil]
      rfl
    · rfl
  · split_ifs with h1
    · rw [List.map_cons, List.map_nil, intToken_ne_sentinel c t _ (by omega)]
    · rfl

/-! ## Current-page marking (claim C1) -/

theorem curVals_ell_if (P : Prop) [Decidable P] :
    curVals (if P then [Token.ellipsis] else []) = [] := by
  split <;> rfl

theorem curVals_single_numTok (c n : Int) :
    curVals [numTok c n] = if c = n then [n] else [] := by
  rw [curVals_cons_numTok]
  split <;> rfl

theorem jg_curVals_in_range (c t m : Int) (h1 : 1 ≤ c) (h2 : c ≤ t) :
    curVals (JG.tokens c t m) = [c] := by
  by_cases hb : t ≤ 3 ∨ JG.maxP m ≥ t
  · rw [jg_tokens_trivial c t m hb, curVals_numTok_intRange, if_pos (by omega)]
  · obtain ⟨hsp2, hpeq, hple, hlt⟩ := jg_general_facts c t m hb
    have hmx := jg_maxP_ge m
    push_neg at hb
    rw [jg_tokens_general c t m (by push_neg; exact hb)]
    rw [curVals_append, curVals_append, curVals_append, curVals_append,
      curVals_ell_if, curVals_ell_if, curVals_numTok_intRange,
      curVals_single_numTok, curVals_single_numTok]
    by_cases hc1 : c = 1
    · rw [if_pos hc1, if_neg (by omega), if_neg (by omega), hc1]
      rfl
    · by_cases hct : c = t
      · rw [if_neg hc1, if_neg (by omega), if_pos hct, hct]
        rfl
      · have hm := jg_mem_facts c t m (by push_neg; exact hb) (by omega) (by omega)
        rw [if_neg hc1, if_pos (by omega), if_neg hct]
        rfl

theorem oe_curVals (c t m : Int) : curVals (OE.tokens c t m) = [OE.cur c t] := by
  have hc1 := oe_cur_ge_one c t
  have hc2 := oe_cur_le_total c t
  have hto := oe_total_ge_one t
  by_cases hb : OE.total t ≤ OE.maxp m
  · rw [oe_tokens_trivial c t m hb, curVals_numTok_intRange, if_pos (by omega)]
  · obtain ⟨f1, f2, f3, f4, f5, f6, f7⟩ := oe_startEnd_facts c t m hb
    have hmx := oe_maxp_ge m
    have ht4 : 3 < OE.total t := by omega
    rw [oe_tokens_general c t m hb, if_pos (by omega : 1 < OE.total t)]
    rw [curVals_append, curVals_append, curVals_append, curVals_append,
      curVals_ell_if, curVals_ell_if, curVals_numTok_intRange,
      curVals_single_numTok, curVals_single_numTok]
    rcases f6 with hcu | hcu | ⟨hca, hcb⟩
    · rw [if_pos hcu, if_neg (by omega), if_neg (by omega), hcu]
      rfl
    · rw [if_neg (by omega), if_neg (by omega), if_pos hcu, hcu]
      rfl
    · rw [if_neg (by omega), if_pos (by omega), if_neg (by omega)]
      rfl

/-- C1 (counterexample): against jg_pagination.py as cited, `format(0, 1, 20)`
carries no `CurrentPage` token at all and renders as `"1"`, not `"[1]"`: the
implementation does not clamp `currentPage`. -/
theorem claim_C1_counterexample :
    curVals (JG.tokens 0 1 20) = [] ∧ JG.paginate 0 1 20 ≠ "[1]" :=
  ⟨rfl, by decide⟩

/-- C1 (amended): with `totalPages ≥ 1`, the jg implementation emits exactly
one `CurrentPage` token — with number `currentPage` — provided `currentPage`
is already inside `[1, totalPages]` (it performs no clamping, so
`format(0, 1, 20)` renders `"1"`); the pagination.py implementation clamps and
emits exactly one `CurrentPage` token with number
`max 1 (min currentPage totalPages)` for every input. -/
theorem claim_C1_theorem (c t m : Int) (h : 1 ≤ t) :
    (1 ≤ c → c ≤ t → curVals (JG.tokens c t m) = [c]) ∧
    curVals (OE.tokens c t m) = [max 1 (min c t)] :=
  ⟨fun h1 h2 => jg_curVals_in_range c t m h1 h2, oe_curVals c t m⟩

theorem claim_C1_witness :
    curVals (JG.tokens 7 30 11) = [7] ∧ curVals (OE.tokens 7 30 11) = [7] := by
  have h := claim_C1_theorem 7 30 11 (by decide)
  exact ⟨h.1 (by decide) (by decide), h.2⟩

/-! ## Degenerate totals (claim C2) -/

/-- C2 (counterexample): jg_pagination.py does not treat `totalPages ≤ 0` as a
single page: `paginate(1, 0, 10)` returns the empty string while
`paginate(1, 1, 10)` returns `"[1]"`. -/
theorem claim_C2_counterexample :
    JG.paginate 1 0 10 = "" ∧ JG.paginate 1 1 10 = "[1]" ∧
    JG.paginate 1 0 10 ≠ JG.paginate 1 1 10 :=
  ⟨rfl, rfl, by decide⟩

/-- C2 (amended): pagination.py treats `totalPages ≤ 0` exactly like
`totalPages = 1` — the output is the single token `[1]` and no error is
raised — whereas jg_pagination.py returns the empty string for every
`totalPages ≤ 0`. -/
theorem claim_C2_theorem (c t m : Int) (h : t ≤ 0) :
    OE.tokens c t m = OE.tokens c 1 m ∧
    OE.tokens c t m = [Token.current 1] ∧
    OE.paginate c t m = OE.paginate c 1 m ∧
    JG.paginate c t m = "" := by
  have hmx := oe_maxp_ge m
  have ht0 : OE.total t = 1 := by unfold OE.total; omega
  have ht1 : OE.total 1 = 1 := by unfold OE.total; omega
  have hc0 : OE.cur c t = 1 := by unfold OE.cur; omega
  have hc1 : OE.cur c 1 = 1 := by unfold OE.cur; omega
  have htok : OE.tokens c t m = [Token.current 1] := by
    rw [oe_tokens_trivial c t m (by omega), ht0, hc0,
      show (1 : Int) + 1 = 2 from rfl,
      intRange_eq_cons (by omega : (1 : Int) < 2),
      intRange_eq_nil (by omega : (2 : Int) ≤ 1 + 1)]
    rfl
  have htok1 : OE.tokens c 1 m = [Token.current 1] := by
    rw [oe_tokens_trivial c 1 m (by omega), ht1, hc1,
      show (1 : Int) + 1 = 2 from rfl,
      intRange_eq_cons (by omega : (1 : Int) < 2),
      intRange_eq_nil (by omega : (2 : Int) ≤ 1 + 1)]
    rfl
  refine ⟨htok.trans htok1.symm, htok, ?_, ?_⟩
  · unfold OE.paginate
    rw [htok, htok1]
  · unfold JG.paginate
    rw [jg_tokens_trivial c t m (Or.inl (by omega)),
      intRange_eq_nil (by omega : t + 1 ≤ 1)]
    rfl

theorem claim_C2_witness :
    OE.tokens 5 0 7 = OE.tokens 5 1 7 ∧
    OE.tokens 5 0 7 = [Token.current 1] ∧
    OE.paginate 5 0 7 = OE.paginate 5 1 7 ∧
    JG.paginate 5 0 7 = "" :=
  claim_C2_theorem 5 0 7 (by decide)

/-! ## The seven documented scenarios (claim C4) -/

/-- C4 (counterexample): jg_pagination.py renders scenario 6, `format(0, 1, 20)`,
as `"1"`, not as the `"[1]"` stated by the claim (the implementation's own test
suite expects `"1"` for this input). -/
theorem claim_C4_counterexample :
    JG.paginate 0 1 20 = "1" ∧ JG.paginate 0 1 20 ≠ "[1]" :=
  ⟨rfl, by decide⟩

/-- C4 (amended): pagination.py returns the literal display strings of all
seven documented scenarios; jg_pagination.py returns those of scenarios 1-5
and 7, but renders scenario 6, `format(0, 1, 20)`, as `"1"`. -/
theorem claim_C4_theorem :
    OE.paginate 1 11 11 = "[1] 2 3 4 5 6 7 8 9 10 11" ∧
    OE.paginate 1 30 11 = "[1] 2 3 4 5 6 7 8 9 10 ... 30" ∧
    OE.paginate 7 30 11 = "1 ... 3 4 5 6 [7] 8 9 10 11 ... 30" ∧
    OE.paginate 30 30 11 = "1 ... 21 22 23 24 25 26 27 28 29 [30]" ∧
    OE.paginate 1 30 10 = "[1] 2 3 4 5 6 7 8 9 ... 30" ∧
    OE.paginate 0 1 20 = "[1]" ∧
    OE.paginate 10 200 11 = "1 ... 6 7 8 9 [10] 11 12 13 14 ... 200" ∧
    JG.paginate 1 11 11 = "[1] 2 3 4 5 6 7 8 9 10 11" ∧
    JG.paginate 1 30 11 = "[1] 2 3 4 5 6 7 8 9 10 ... 30" ∧
    JG.paginate 7 30 11 = "1 ... 3 4 5 6 [7] 8 9 10 11 ... 30" ∧
    JG.paginate 30 30 11 = "1 ... 21 22 23 24 25 26 27 28 29 [30]" ∧
    JG.paginate 1 30 10 = "[1] 2 3 4 5 6 7 8 9 ... 30" ∧
    JG.paginate 0 1 20 = "1" ∧
    JG.paginate 10 200 11 = "1 ... 6 7 8 9 [10] 11 12 13 14 ... 200" :=
  ⟨rfl, rfl, rfl, rfl, rfl, rfl, rfl, rfl, rfl, rfl, rfl, rfl, rfl, rfl⟩

/-! ## Agreement of the two implementations (claim C8) -/

/-- C8 (counterexample): the two implementations do not agree on all seven
documented inputs: at `(0, 1, 20)` jg_pagination.py returns `"1"` while
pagination.py returns `"[1]"`. -/
theorem claim_C8_counterexample :
    JG.paginate 0 1 20 = "1" ∧ OE.paginate 0 1 20 = "[1]" ∧
    JG.paginate 0 1 20 ≠ OE.paginate 0 1 20 :=
  ⟨rfl, rfl, by decide⟩

/-- C8 (amended): the two implementations return identical display strings on
six of the seven documented scenarios; they diverge on scenario 6,
`(0, 1, 20)`. -/
theorem claim_C8_theorem :
    JG.paginate 1 11 11 = OE.paginate 1 11 11 ∧
    JG.paginate 1 30 11 = OE.paginate 1 30 11 ∧
    JG.paginate 7 30 11 = OE.paginate 7 30 11 ∧
    JG.paginate 30 30 11 = OE.paginate 30 30 11 ∧
    JG.paginate 1 30 10 = OE.paginate 1 30 10 ∧
    JG.paginate 10 200 11 = OE.paginate 10 200 11 :=
  ⟨rfl, rfl, rfl, rfl, rfl, rfl⟩

/-! ## Totality (claim C9) -/

/-- C9: both `paginate` functions are total deterministic functions from three
integers to a display string: every input — zero, negative, or out of
bounds — evaluates to a string, with no error path in either embedding
(sample extreme inputs evaluated explicitly). -/
theorem claim_C9_theorem :
    (∀ c t m : Int, ∃ s : String, JG.paginate c t m = s) ∧
    (∀ c t m : Int, ∃ s : String, OE.paginate c t m = s) ∧
    JG.paginate (-5) (-7) (-9) = "" ∧
    OE.paginate (-5) (-7) (-9) = "[1]" ∧
    JG.paginate 0 0 0 = "" ∧
    OE.paginate 0 0 0 = "[1]" :=
  ⟨fun c t m => ⟨JG.paginate c t m, rfl⟩,
   fun c t m => ⟨OE.paginate c t m, rfl⟩,
   rfl, rfl, rfl, rfl⟩

/-! ## First/last anchors (claim C6) and monotonicity (claim C10) -/

theorem numVals_ell_if (P : Prop) [Decidable P] :
    numVals (if P then [Token.ellipsis] else []) = [] := by
  split <;> rfl

theorem numVals_single_numTok (c n : Int) : numVals [numTok c n] = [n] := by
  unfold numVals
  rw [List.filterMap_cons, numVal_numTok]
  rfl

theorem jg_numVals_general (c t m : Int) (h : ¬(t ≤ 3 ∨ JG.maxP m ≥ t)) :
    numVals (JG.tokens c t m)
      = [1] ++ intRange (JG.secondPage c t m) (JG.penultimate c t m) ++ [t] := by
  rw [jg_tokens_general c t m h]
  rw [numVals_append, numVals_append, numVals_append, numVals_append,
    numVals_ell_if, numVals_ell_if, numVals_map_numTok,
    numVals_single_numTok, numVals_single_numTok]
  simp

theorem oe_numVals_general (c t m : Int) (h : ¬(OE.total t ≤ OE.maxp m)) :
    numVals (OE.tokens c t m)
      = [1] ++ intRange (OE.startEnd c t m).1 ((OE.startEnd c t m).2 + 1)
          ++ [OE.total t] := by
  have hmx := oe_maxp_ge m
  rw [oe_tokens_general c t m h, if_pos (by unfold OE.total at *; omega : 1 < OE.total t)]
  rw [numVals_append, numVals_append, numVals_append, numVals_append,
    numVals_ell_if, numVals_ell_if, numVals_map_numTok,
    numVals_single_numTok, numVals_single_numTok]
  simp

/-- C6: for every input with `totalPages ≥ 1`, in both implementations the
first numeric token is page 1 and, when `totalPages > 1`, the last numeric
token is page `totalPages`. -/
theorem claim_C6_theorem (c t m : Int) (h : 1 ≤ t) :
    (numVals (JG.tokens c t m)).head? = some 1 ∧
    (1 < t → (numVals (JG.tokens c t m)).getLast? = some t) ∧
    (numVals (OE.tokens c t m)).head? = some 1 ∧
    (1 < t → (numVals (OE.tokens c t m)).getLast? = some t) := by
  have ht1 : t + 1 - 1 = t := by omega
  refine ⟨?_, ?_, ?_, ?_⟩
  · by_cases hb : t ≤ 3 ∨ JG.maxP m ≥ t
    · rw [jg_tokens_trivial c t m hb, numVals_map_numTok,
        head?_intRange (by omega)]
    · rw [jg_numVals_general c t m hb, List.singleton_append, List.cons_append]
      rfl
  · intro h2
    by_cases hb : t ≤ 3 ∨ JG.maxP m ≥ t
    · rw [jg_tokens_trivial c t m hb, numVals_map_numTok,
        getLast?_intRange (by omega), ht1]
    · rw [jg_numVals_general c t m hb, List.getLast?_concat]
  · by_cases hb : OE.total t ≤ OE.maxp m
    · rw [oe_tokens_trivial c t m hb, numVals_map_numTok,
        head?_intRange (by have := oe_total_ge_one t; omega)]
    · rw [oe_numVals_general c t m hb, List.singleton_append, List.cons_append]
      rfl
  · intro h2
    by_cases hb : OE.total t ≤ OE.maxp m
    · rw [oe_tokens_trivial c t m hb, numVals_map_numTok,
        getLast?_intRange (by have := oe_total_ge_one t; omega), oe_total_eq t h, ht1]
    · rw [oe_numVals_general c t m hb, oe_total_eq t h, List.getLast?_concat]

theorem claim_C6_witness :
    (numVals (JG.tokens 7 30 11)).head? = some 1 ∧
    (numVals (JG.tokens 7 30 11)).getLast? = some 30 ∧
    (numVals (OE.tokens 7 30 11)).head? = some 1 ∧
    (numVals (OE.tokens 7 30 11)).getLast? = some 30 := by
  have h := claim_C6_theorem 7 30 11 (by decide)
  exact ⟨h.1, h.2.1 (by decide), h.2.2.1, h.2.2.2 (by decide)⟩

theorem strictIncr_intRange (a b : Int) : strictIncr (intRange a b) = true := by
  have h := strictIncr_intRange_append a b [] rfl (fun y hy => by simp at hy)
  rwa [List.append_nil] at h

theorem strictIncr_cons_intRange_append (x a b : Int) (l : List Int)
    (hxa : x < a) (hab : a < b) (hl : strictIncr l = true)
    (hhead : ∀ y, l.head? = some y → b ≤ y) :
    strictIncr (x :: (intRange a b ++ l)) = true := by
  have hmain := strictIncr_intRange_append a b l hl hhead
  rw [intRange_eq_cons hab, List.cons_append] at hmain ⊢
  rw [strictIncr_cons]
  simp only [List.head?_cons]
  rw [hmain]
  simp [hxa]

theorem jg_strictIncr_numVals (c t m : Int) :
    strictIncr (numVals (JG.tokens c t m)) = true := by
  by_cases hb : t ≤ 3 ∨ JG.maxP m ≥ t
  · rw [jg_tokens_trivial c t m hb, numVals_map_numTok]
    exact strictIncr_intRange 1 (t + 1)
  · obtain ⟨hsp2, hpeq, hple, hlt⟩ := jg_general_facts c t m hb
    rw [jg_numVals_general c t m hb, List.singleton_append, List.cons_append]
    exact strictIncr_cons_intRange_append 1 _ _ [t] (by omega) hlt rfl
      (fun y hy => by simp at hy; omega)

theorem oe_strictIncr_numVals (c t m : Int) :
    strictIncr (numVals (OE.tokens c t m)) = true := by
  by_cases hb : OE.total t ≤ OE.maxp m
  · rw [oe_tokens_trivial c t m hb, numVals_map_numTok]
    exact strictIncr_intRange 1 (OE.total t + 1)
  · obtain ⟨f1, f2, f3, f4, f5, f6, f7⟩ := oe_startEnd_facts c t m hb
    rw [oe_numVals_general c t m hb, List.singleton_append, List.cons_append]
    exact strictIncr_cons_intRange_append 1 _ _ [OE.total t] (by omega)
      (by omega) rfl (fun y hy => by simp at hy; omega)

/-- C10: for every input with `totalPages ≥ 1`, the numeric token values of
both implementations are strictly increasing across the whole output (hence
pairwise distinct, and the middle run never duplicates the first/last
anchors). -/
theorem claim_C10_theorem (c t m : Int) (h : 1 ≤ t) :
    strictIncr (numVals (JG.tokens c t m)) = true ∧
    strictIncr (numVals (OE.tokens c t m)) = true :=
  ⟨jg_strictIncr_numVals c t m, oe_strictIncr_numVals c t m⟩

theorem claim_C10_witness :
    strictIncr (numVals (JG.tokens 24 30 11)) = true ∧
    strictIncr (numVals (OE.tokens 24 30 11)) = true :=
  claim_C10_theorem 24 30 11 (by decide)

/-! ## Numeric-token count bound (claim C7) -/

theorem numCount_ell_if (P : Prop) [Decidable P] :
    numCount (if P then [Token.ellipsis] else []) = 0 := by
  unfold numCount
  rw [numVals_ell_if]
  rfl

theorem numCount_single_numTok (c n : Int) : numCount [numTok c n] = 1 := by
  unfold numCount
  rw [numVals_single_numTok]
  rfl

/-- C7: the number of numeric tokens emitted by jg_pagination.py (the
implementation the claim cites) never exceeds `max(3, maxVisible)`. -/
theorem claim_C7_theorem (c t m : Int) :
    (numCount (JG.tokens c t m) : Int) ≤ max 3 m := by
  have hmax := jg_maxP_eq_max m
  have hge := jg_maxP_ge m
  by_cases hb : t ≤ 3 ∨ JG.maxP m ≥ t
  · rw [jg_tokens_trivial c t m hb, numCount_map_numTok, length_intRange]
    omega
  · obtain ⟨hsp2, hpeq, hple, hlt⟩ := jg_general_facts c t m hb
    have hc : numCount (JG.tokens c t m)
        = 1 + 0 + (JG.penultimate c t m - JG.secondPage c t m).toNat + 0 + 1 := by
      rw [jg_tokens_general c t m hb, numCount_append, numCount_append,
        numCount_append, numCount_append, numCount_ell_if, numCount_ell_if,
        numCount_map_numTok, length_intRange, numCount_single_numTok,
        numCount_single_numTok]
    omega

/-! ## Ellipsis placement (claim C3) -/

theorem isEll_of_mem_map_numTok (cc : Int) (r : List Int) (t : Token)
    (ht : t ∈ r.map (numTok cc)) : isEll t = false := by
  rcases List.mem_map.mp ht with ⟨x, _, rfl⟩
  exact isEll_numTok cc x

theorem noAdjEll_all_num (ts : List Token) (h : ∀ t ∈ ts, isEll t = false) :
    noAdjEll ts = true := by
  have h2 := noAdjEll_append_num ts [] h
  rwa [List.append_nil] at h2

theorem ellGapsGe_all_num (k : Int) (ts : List Token)
    (h : ∀ t ∈ ts, isEll t = false) : ellGapsGe k ts = true := by
  induction ts with
  | nil => rfl
  | cons a ts ih =>
    cases ts with
    | nil => rfl
    | cons b l =>
      rw [ellGapsGe_cons_num k a b l (h b (by simp))]
      exact ih fun x hx => h x (List.mem_cons_of_mem a hx)

theorem ellGapsGe_step_ell (k : Int) (a b : Token) (l : List Token) :
    ellGapsGe k (a :: Token.ellipsis :: b :: l)
      = (gapOK k a b && ellGapsGe k (Token.ellipsis :: b :: l)) := by
  rw [ellGapsGe_cons_cons]
  simp [isEll]

theorem gapOK_numTok (k cc x y : Int) :
    gapOK k (numTok cc x) (numTok cc y) = decide (x + k + 1 ≤ y) := by
  unfold gapOK
  rw [numVal_numTok, numVal_numTok]

theorem ellGapsGe_run_tail (k cc a b tl : Int) (hab : a < b)
    (hQ : b - 1 + k + 1 ≤ tl) :
    ellGapsGe k ((intRange a b).map (numTok cc)
      ++ Token.ellipsis :: [numTok cc tl]) = true := by
  rw [intRange_concat hab, List.map_append, List.map_cons, List.map_nil,
    List.append_assoc, List.singleton_append]
  rw [ellGapsGe_append_num k _ _ _ (fun t ht => isEll_of_mem_map_numTok cc _ t ht)
    (isEll_numTok cc (b - 1))]
  rw [ellGapsGe_step_ell, gapOK_numTok]
  rw [ellGapsGe_cons_num k _ _ _ (isEll_numTok cc tl)]
  simp [ellGapsGe, hQ]

theorem ellGapsGe_run_tail_num (k cc a b tl : Int) :
    ellGapsGe k ((intRange a b).map (numTok cc) ++ [numTok cc tl]) = true := by
  refine ellGapsGe_all_num k _ (fun t ht => ?_)
  rcases List.mem_append.mp ht with h1 | h1
  · exact isEll_of_mem_map_numTok cc _ t h1
  · rcases List.mem_singleton.mp h1 with rfl
    exact isEll_numTok cc tl

theorem ellGapsGe_ell_run_tail (k cc x a b : Int) (l : List Token)
    (hab : a < b) (hx : x + k + 1 ≤ a)
    (hl : ellGapsGe k ((intRange a b).map (numTok cc) ++ l) = true) :
    ellGapsGe k (numTok cc x :: Token.ellipsis
      :: ((intRange a b).map (numTok cc) ++ l)) = true := by
  rw [intRange_eq_cons hab, List.map_cons, List.cons_append] at hl ⊢
  rw [ellGapsGe_step_ell, gapOK_numTok]
  rw [ellGapsGe_cons_num k _ _ _ (isEll_numTok cc a)]
  rw [hl]
  simp [hx]

theorem ellGapsGe_num_run_tail (k cc x a b : Int) (l : List Token) (hab : a < b)
    (hl : ellGapsGe k ((intRange a b).map (numTok cc) ++ l) = true) :
    ellGapsGe k (numTok cc x :: ((intRange a b).map (numTok cc) ++ l)) = true := by
  rw [intRange_eq_cons hab, List.map_cons, List.cons_append] at hl ⊢
  rw [ellGapsGe_cons_num k _ _ _ (isEll_numTok cc a)]
  exact hl

theorem ellGapsGe_shape (k cc a b tl : Int) (P Q : Prop) [Decidable P]
    [Decidable Q] (hab : a < b) (hP : P → 1 + k + 1 ≤ a)
    (hQ : Q → b - 1 + k + 1 ≤ tl) :
    ellGapsGe k ([numTok cc 1]
      ++ (if P then [Token.ellipsis] else [])
      ++ (intRange a b).map (numTok cc)
      ++ (if Q then [Token.ellipsis] else [])
      ++ [numTok cc tl]) = true := by
  simp only [List.append_assoc, List.singleton_append, List.cons_append, List.nil_append]
  by_cases hp : P <;> by_cases hq : Q
  · rw [if_pos hp, if_pos hq]
    simp only [List.singleton_append, List.cons_append]
    exact ellGapsGe_ell_run_tail k cc 1 a b _ hab (hP hp)
      (ellGapsGe_run_tail k cc a b tl hab (hQ hq))
  · rw [if_pos hp, if_neg hq]
    simp only [List.singleton_append, List.cons_append, List.nil_append]
    exact ellGapsGe_ell_run_tail k cc 1 a b _ hab (hP hp)
      (ellGapsGe_run_tail_num k cc a b tl)
  · rw [if_neg hp, if_pos hq]
    simp only [List.singleton_append, List.cons_append, List.nil_append]
    exact ellGapsGe_num_run_tail k cc 1 a b _ hab
      (ellGapsGe_run_tail k cc a b tl hab (hQ hq))
  · rw [if_neg hp, if_neg hq]
    simp only [List.singleton_append, List.cons_append, List.nil_append]
    exact ellGapsGe_num_run_tail k cc 1 a b _ hab
      (ellGapsGe_run_tail_num k cc a b tl)

theorem noAdjEll_run_tail (cc a b tl : Int) :
    noAdjEll ((intRange a b).map (numTok cc)
      ++ Token.ellipsis :: [numTok cc tl]) = true := by
  rw [noAdjEll_append_num _ _ (fun t ht => isEll_of_mem_map_numTok cc _ t ht)]
  rw [noAdjEll_cons_ell_num _ _ (isEll_numTok cc tl)]
  rfl

theorem noAdjEll_run_tail_num (cc a b tl : Int) :
    noAdjEll ((intRange a b).map (numTok cc) ++ [numTok cc tl]) = true := by
  refine noAdjEll_all_num _ (fun t ht => ?_)
  rcases List.mem_append.mp ht with h1 | h1
  · exact isEll_of_mem_map_numTok cc _ t h1
  · rcases List.mem_singleton.mp h1 with rfl
    exact isEll_numTok cc tl

theorem noAdjEll_ell_run_tail (cc a b : Int) (l : List Token) (hab : a < b)
    (hl : noAdjEll ((intRange a b).map (numTok cc) ++ l) = true) :
    noAdjEll (Token.ellipsis :: ((intRange a b).map (numTok cc) ++ l)) = true := by
  rw [intRange_eq_cons hab, List.map_cons, List.cons_append] at hl ⊢
  rw [noAdjEll_cons_ell_num _ _ (isEll_numTok cc a)]
  exact hl

theorem noAdjEll_shape (cc a b tl : Int) (P Q : Prop) [Decidable P]
    [Decidable Q] (hab : a < b) :
    noAdjEll ([numTok cc 1]
      ++ (if P then [Token.ellipsis] else [])
      ++ (intRange a b).map (numTok cc)
      ++ (if Q then [Token.ellipsis] else [])
      ++ [numTok cc tl]) = true := by
  simp only [List.append_assoc, List.singleton_append, List.cons_append, List.nil_append]
  rw [noAdjEll_cons_num _ _ (isEll_numTok cc 1)]
  by_cases hp : P <;> by_cases hq : Q
  · rw [if_pos hp, if_pos hq]
    simp only [List.singleton_append, List.cons_append]
    exact noAdjEll_ell_run_tail cc a b _ hab (noAdjEll_run_tail cc a b tl)
  · rw [if_pos hp, if_neg hq]
    simp only [List.singleton_append, List.cons_append, List.nil_append]
    exact noAdjEll_ell_run_tail cc a b _ hab (noAdjEll_run_tail_num cc a b tl)
  · rw [if_neg hp, if_pos hq]
    simp only [List.singleton_append, List.cons_append, List.nil_append]
    exact noAdjEll_run_tail cc a b tl
  · rw [if_neg hp, if_neg hq]
    simp only [List.singleton_append, List.cons_append, List.nil_append]
    exact noAdjEll_run_tail_num cc a b tl

theorem jg_ell_invariants (c t m : Int) :
    noAdjEll (JG.tokens c t m) = true ∧ ellGapsGe 1 (JG.tokens c t m) = true := by
  by_cases hb : t ≤ 3 ∨ JG.maxP m ≥ t
  · rw [jg_tokens_trivial c t m hb]
    have hmem : ∀ tok ∈ (intRange 1 (t + 1)).map (numTok c), isEll tok = false :=
      fun tok ht => isEll_of_mem_map_numTok c _ tok ht
    exact ⟨noAdjEll_all_num _ hmem, ellGapsGe_all_num 1 _ hmem⟩
  · obtain ⟨hsp2, hpeq, hple, hlt⟩ := jg_general_facts c t m hb
    rw [jg_tokens_general c t m hb]
    exact ⟨noAdjEll_shape c _ _ t _ _ hlt,
      ellGapsGe_shape 1 c _ _ t _ _ hlt (fun hp => by omega) (fun hq => by omega)⟩

theorem oe_ell_invariants (c t m : Int) :
    noAdjEll (OE.tokens c t m) = true ∧ ellGapsGe 1 (OE.tokens c t m) = true := by
  by_cases hb : OE.total t ≤ OE.maxp m
  · rw [oe_tokens_trivial c t m hb]
    have hmem : ∀ tok ∈ (intRange 1 (OE.total t + 1)).map (numTok (OE.cur c t)),
        isEll tok = false :=
      fun tok ht => isEll_of_mem_map_numTok _ _ tok ht
    exact ⟨noAdjEll_all_num _ hmem, ellGapsGe_all_num 1 _ hmem⟩
  · obtain ⟨f1, f2, f3, f4, f5, f6, f7⟩ := oe_startEnd_facts c t m hb
    have hmx := oe_maxp_ge m
    rw [oe_tokens_general c t m hb, if_pos (by omega : 1 < OE.total t)]
    exact ⟨noAdjEll_shape _ _ _ _ _ _ (by omega),
      ellGapsGe_shape 1 _ _ _ _ _ _ (by omega)
        (fun hp => by have := f4 hp; omega) (fun hq => by have := f5 hq; omega)⟩

/-- C3 (counterexample): the claim's strong reading — an ellipsis never stands
for a single omitted page — fails in both implementations at `(7, 30, 11)`:
both outputs begin `1 ... 3`, where the ellipsis stands for page 2 alone (this
is the specification's own scenario 3). -/
theorem claim_C3_counterexample :
    ellGapsGe 2 (JG.tokens 7 30 11) = false ∧
    (JG.tokens 7 30 11).take 3 = [Token.page 1, Token.ellipsis, Token.page 3] ∧
    ellGapsGe 2 (OE.tokens 7 30 11) = false :=
  ⟨rfl, rfl, rfl⟩

/-- C3 (amended): in both implementations no two adjacent tokens are both
ellipses, and every ellipsis sits between two numeric tokens whose values
differ by at least 2 — it stands for at least one omitted page (but possibly
exactly one). -/
theorem claim_C3_theorem (c t m : Int) :
    noAdjEll (JG.tokens c t m) = true ∧ ellGapsGe 1 (JG.tokens c t m) = true ∧
    noAdjEll (OE.tokens c t m) = true ∧ ellGapsGe 1 (OE.tokens c t m) = true :=
  ⟨(jg_ell_invariants c t m).1, (jg_ell_invariants c t m).2,
   (oe_ell_invariants c t m).1, (oe_ell_invariants c t m).2⟩

/-! ## Centering of the current page (claim C5) -/

theorem ellCount_ell_if (P : Prop) [Decidable P] :
    ellCount (if P then [Token.ellipsis] else []) = if P then 1 else 0 := by
  split <;> rfl

theorem ellCount_single_numTok (c n : Int) : ellCount [numTok c n] = 0 :=
  ellCount_map_numTok c [n]

theorem numCount_pair (c n : Int) :
    numCount [Token.ellipsis, numTok c n] = 1 := by
  unfold numCount numVals
  rw [List.filterMap_cons, List.filterMap_cons, numVal_numTok]
  rfl

theorem jg_ellCount_general (c t m : Int) (hb : ¬(t ≤ 3 ∨ JG.maxP m ≥ t)) :
    ellCount (JG.tokens c t m)
      = (if 2 < JG.secondPage c t m then 1 else 0)
        + (if JG.penultimate c t m < t then 1 else 0) := by
  rw [jg_tokens_general c t m hb, ellCount_append, ellCount_append,
    ellCount_append, ellCount_append, ellCount_ell_if, ellCount_ell_if,
    ellCount_map_numTok, ellCount_single_numTok, ellCount_single_numTok]
  omega

/-- C5 (counterexample): at `(10, 200, 10)` (even `maxVisible`, both ellipses
present) jg_pagination.py shows 4 numeric tokens before the current page and 5
after it — the single unpaired slot goes to the right, not the left. -/
theorem claim_C5_counterexample :
    ellCount (JG.tokens 10 200 10) = 2 ∧
    befCur (JG.tokens 10 200 10) = 4 ∧
    aftCur (JG.tokens 10 200 10) = 5 ∧
    ¬(aftCur (JG.tokens 10 200 10) ≤ befCur (JG.tokens 10 200 10)) :=
  ⟨rfl, rfl, rfl, by decide⟩

/-- C5 (amended): in jg_pagination.py, whenever the output carries both
ellipses, the number of numeric tokens before the `CurrentPage` token plus one
equals the number after it plus `max(3, maxVisible) mod 2`: the current page is
exactly centred for odd `maxVisible`, and for even `maxVisible` the one
unpaired slot lies to the right of the current page. -/
theorem claim_C5_theorem (c t m : Int)
    (hell : ellCount (JG.tokens c t m) = 2) :
    (befCur (JG.tokens c t m) : Int) + 1
      = (aftCur (JG.tokens c t m) : Int) + (max 3 m).fmod 2 := by
  by_cases hb : t ≤ 3 ∨ JG.maxP m ≥ t
  · rw [jg_tokens_trivial c t m hb, ellCount_map_numTok] at hell
    exact absurd hell (by omega)
  · have hec := jg_ellCount_general c t m hb
    rw [hell] at hec
    by_cases h1 : 2 < JG.secondPage c t m
    · by_cases h2 : JG.penultimate c t m < t
      · obtain ⟨hspe, hpene, hc3, hct⟩ := jg_both_facts c t m hb h1 h2
        have hme := jg_mid_extra m
        have hmx := jg_maxP_ge m
        have hcm1 : JG.secondPage c t m ≤ c := by omega
        have hcm2 : c < JG.penultimate c t m := by omega
        have hbef : befCur (JG.tokens c t m)
            = (c - JG.secondPage c t m).toNat + 1 := by
          rw [jg_tokens_general c t m hb, if_pos h1, if_pos h2]
          simp only [List.append_assoc, List.singleton_append, List.cons_append, List.nil_append]
          rw [befCur_cons_numTok, if_neg (by omega : ¬(c = 1)), befCur_cons_ell,
            befCur_numTok_intRange c _ _ _ hcm1 hcm2]
        have haft : aftCur (JG.tokens c t m)
            = (JG.penultimate c t m - 1 - c).toNat + 1 := by
          rw [jg_tokens_general c t m hb, if_pos h1, if_pos h2]
          simp only [List.append_assoc, List.singleton_append, List.cons_append, List.nil_append]
          rw [aftCur_cons_numTok, if_neg (by omega : ¬(c = 1)), aftCur_cons_ell,
            aftCur_numTok_intRange c _ _ _ hcm1 hcm2, numCount_pair]
        have hext : JG.extra m = (max 3 m).fmod 2 := by
          unfold JG.extra
          rw [jg_maxP_eq_max]
        rw [hbef, haft, ← hext]
        push_cast
        omega
      · rw [if_pos h1, if_neg h2] at hec
        omega
    · rw [if_neg h1] at hec
      by_cases h2 : JG.penultimate c t m < t
      · rw [if_pos h2] at hec
        omega
      · rw [if_neg h2] at hec
        omega

theorem claim_C5_witness :
    (befCur (JG.tokens 10 200 11) : Int) + 1
      = (aftCur (JG.tokens 10 200 11) : Int) + (max 3 (11 : Int)).fmod 2 :=
  claim_C5_theorem 10 200 11 (by decide)
